import Mathlib

/-!
Shallow embedding of the Modulo Krinkle tiling generation engine
(`KrinkleGenerator` in `app.js`) and verification of its specification.

Modelling conventions:
* JavaScript numbers used as integers (parameters, indices, sequence
  entries) become `Nat`.
* JavaScript floating-point geometry (`Math.cos`, `Math.sin`, point
  coordinates) becomes exact real arithmetic over `ℝ`; floating-point
  rounding is not modelled.
* Color strings (`hsla(...)`, `rgba(...)`) are modelled by an inductive
  `Color` carrying the exact numeric components the source interpolates
  into the string; the fractional components are exact rationals.
* The mutable instance state of the class (`this.polygons`,
  `this.palette`, `this.currentParams`, `this.paletteType`) is threaded
  explicitly: the global `TILING_CONFIG` and the stored palette type
  become explicit `Config`/`PaletteType` arguments, and `currentParams`
  becomes the `(m, k, n)` arguments passed to `getColorIndex`.
* `console.log` / `console.error` / `console.warn` side effects are not
  modelled; the condition of the `n < k` error report is exposed as
  `paramErrorLogged`.
-/

namespace Krinkle

/-- A 2D point `{x, y}`; `.1` is `x`, `.2` is `y`. -/
abbrev Point : Type := ℝ × ℝ

/-- Palette type stored in `this.paletteType` (`'color'` or `'gray'`). -/
inductive PaletteType where
  | color
  | gray
deriving DecidableEq

/-- A color value.  The source stores colors as strings; we keep the exact
numeric components that the source interpolates into them.
`hsla h s l a` models the string `hsla(h, s%, l%, a)`; `rgba` models an
`rgba(...)` literal; `undef` models JavaScript `undefined` (an
out-of-range palette index). -/
inductive Color where
  | hsla (h : ℤ) (s : ℤ) (l : ℤ) (a : ℚ)
  | rgba (r : ℕ) (g : ℕ) (b : ℕ) (a : ℚ)
  | undef
deriving DecidableEq

/-- Tile metadata record.  JavaScript objects carry only the fields that
were assigned; absent fields are `none`. -/
structure Meta where
  closureError : Option ℝ
  hasShortPeriod : Option Bool
  wedgeIndex : Option ℕ
  tileIndex : Option ℕ
  r : Option ℕ
  c : Option ℕ
  isCopy : Option Bool

/-- A polygon as produced by the generator:
`{ path, color, stroke, meta }`. -/
structure Polygon where
  path : List Point
  color : Color
  stroke : String
  meta : Meta

/-- A per-wedge color rule `{ reverse, startColor }`; either field may be
absent (JavaScript `undefined`). -/
structure WedgeRule where
  reverse : Option Bool
  startColor : Option ℕ
deriving DecidableEq

/-- The `params: {c, m, k, n}` key of a wedge-configuration entry. -/
structure WedgeParams where
  c : ℕ
  m : ℕ
  k : ℕ
  n : ℕ
deriving DecidableEq

/-- One entry of `TILING_CONFIG.wedges`: a `params` record plus a sparse
mapping from wedge index to rule (the numeric properties of the object). -/
structure WedgeConfigEntry where
  params : WedgeParams
  rules : List (ℕ × WedgeRule)

/-- The global `TILING_CONFIG` structure: a color count and the list of
per-parameter wedge configuration entries. -/
structure Config where
  colorCount : ℕ
  wedges : List WedgeConfigEntry

/-- The per-wedge rules of the shipped `TILING_CONFIG` entry for
`(c, m, k, n) = (3, 3, 7, 14)`. -/
def tilingConfigRules : List (ℕ × WedgeRule) :=
  [(0, ⟨some false, some 0⟩), (1, ⟨some true, some 1⟩),
   (2, ⟨some false, some 2⟩), (3, ⟨some true, some 1⟩),
   (4, ⟨some false, some 0⟩), (5, ⟨some true, some 2⟩),
   (6, ⟨some false, some 0⟩), (7, ⟨some true, some 2⟩),
   (8, ⟨some false, some 1⟩), (9, ⟨some true, some 0⟩),
   (10, ⟨some false, some 1⟩), (11, ⟨some true, some 2⟩),
   (12, ⟨some false, some 0⟩), (13, ⟨some true, some 2⟩)]

/-- The shipped `TILING_CONFIG` constant of `app.js`. -/
def tilingConfig : Config :=
  ⟨3, [⟨⟨3, 3, 7, 14⟩, tilingConfigRules⟩]⟩

/-!  Boundary Sequence Builder (`generatePrototile`, first half).

The source builds `l_seq` with
`for (j = 0; j < k; j++) { if (j > 0 && (j*m) % k == 0) break; push((j*m) % k); } push(k);`
and `u_seq` with
`u = [k]; for (j = 1; j < k; j++) { if ((j*m) % k == 0) break; push((j*m) % k); } push(0);`.
The loop-with-break is modelled by `takeWhile` over the loop range. -/

/-- Lower boundary sequence `l_seq`. -/
def l_seq (m k : ℕ) : List ℕ :=
  (((List.range k).takeWhile fun j => j == 0 || (j * m) % k != 0).map
    fun j => (j * m) % k) ++ [k]

/-- Upper boundary sequence `u_seq`. -/
def u_seq (m k : ℕ) : List ℕ :=
  k :: ((((List.range' 1 (k - 1)).takeWhile fun j => (j * m) % k != 0).map
    fun j => (j * m) % k) ++ [0])

/-- `hasShortPeriod`: set when either sequence loop hit its `break`,
i.e. when some `j` with `0 < j < k` satisfies `(j·m) mod k = 0`
(both loops break on exactly this condition). -/
def hasShortPeriod (m k : ℕ) : Bool :=
  (List.range' 1 (k - 1)).any fun j => (j * m) % k == 0

/-- Condition under which `generatePrototile` logs
`"Parameter Error: n must be >= k"` (it logs and then continues). -/
def paramErrorLogged (k n : ℕ) : Bool :=
  n < k

/-!  Color Indexer (`generatePalette`, `getColorIndex`). -/

/-- `generatePalette(count, type)`: the palette list the source stores in
`this.palette`.  `hsla(0, 0%, floor(l)%, 0.6)` in gray mode,
`hsla(floor(360/count*i), 70%, 60%, 0.6)` in color mode. -/
def generatePalette (count : ℕ) (ptype : PaletteType) : List Color :=
  (List.range count).map fun i =>
    match ptype with
    | .gray =>
      let minL : ℚ := 25
      let maxL : ℚ := 80
      let range : ℚ := maxL - minL
      let step : ℚ := if count > 1 then range / ((count : ℚ) - 1) else 0
      let l : ℚ := minL + step * (i : ℚ)
      Color.hsla 0 0 (Rat.floor l) (3 / 5)
    | .color =>
      Color.hsla (Rat.floor ((360 : ℚ) / (count : ℚ) * (i : ℚ))) 70 60 (3 / 5)

/-- Look up the per-wedge rule: the first `TILING_CONFIG.wedges` entry
whose `params` match `(colorCount, m, k, n)` is consulted at key
`wedgeIndex`; `none` when there is no matching entry or the entry has no
rule for this index (JavaScript `item[wedgeIndex] || {}`). -/
def ruleFor (cfg : Config) (m k n wedgeIndex : ℕ) : Option WedgeRule :=
  match cfg.wedges.find? fun item =>
      item.params.c == cfg.colorCount && item.params.m == m &&
      item.params.k == k && item.params.n == n with
  | some item => List.lookup wedgeIndex item.rules
  | none => none

/-- `getColorIndex(r, c, wedgeIndex)`.  `this.currentParams` is passed
explicitly as `(m, k, n)`; the `(!m || !k || !n)` guard is the test
against `0`. -/
def getColorIndex (cfg : Config) (m k n r c wedgeIndex : ℕ) : ℕ :=
  let count := cfg.colorCount
  if m == 0 || k == 0 || n == 0 then wedgeIndex % count
  else
    let wedgeConfig := (ruleFor cfg m k n wedgeIndex).getD ⟨none, none⟩
    let reverse : Bool := wedgeConfig.reverse.getD (wedgeIndex % 2 != 0)
    let startColor : ℕ := wedgeConfig.startColor.getD (wedgeIndex % count)
    let baseIndex : ℕ :=
      if reverse then (count - (r + c) % count) % count else (r + c) % count
    (baseIndex + startColor) % count

/-!  Prototile Builder (`generatePrototile`, second half). -/

/-- The `getVector` helper: direction index `d` to the vector of angle
`d·2π/n` and length `100`. -/
noncomputable def getVector (n d : ℕ) : Point :=
  ((Real.cos ((d : ℝ) * (2 * Real.pi) / (n : ℝ))) * 100,
   (Real.sin ((d : ℝ) * (2 * Real.pi) / (n : ℝ))) * 100)

/-- The list of displacement steps of the prototile path: forward along
`l_seq`, then backward along reversed `u_seq` (the source subtracts each
vector; we add its negation). -/
noncomputable def prototileSteps (m k n : ℕ) : List Point :=
  (l_seq m k).map (getVector n) ++
    (u_seq m k).reverse.map fun d => (-(getVector n d).1, -(getVector n d).2)

/-- The prototile path: starts at the origin and accumulates every step,
recording each intermediate position (the source pushes `current` after
every step, with the origin pushed first). -/
noncomputable def prototilePath (m k n : ℕ) : List Point :=
  List.scanl (fun cur v => (cur.1 + v.1, cur.2 + v.2)) ((0 : ℝ), (0 : ℝ))
    (prototileSteps m k n)

/-- The final accumulated position `current` after both walks. -/
noncomputable def prototileFinal (m k n : ℕ) : Point :=
  (prototileSteps m k n).foldl (fun cur v => (cur.1 + v.1, cur.2 + v.2))
    ((0 : ℝ), (0 : ℝ))

/-- `closureError`: `Math.hypot` of the final accumulated position. -/
noncomputable def closureError (m k n : ℕ) : ℝ :=
  Real.sqrt ((prototileFinal m k n).1 ^ 2 + (prototileFinal m k n).2 ^ 2)

/-- The single polygon produced by `generatePrototile`. -/
noncomputable def prototilePoly (m k n : ℕ) : Polygon :=
  { path := prototilePath m k n,
    color := Color.rgba 88 166 255 (2 / 5),
    stroke := "#58a6ff",
    meta := { closureError := some (closureError m k n),
              hasShortPeriod := some (hasShortPeriod m k),
              wedgeIndex := none, tileIndex := none,
              r := none, c := none, isCopy := none } }

/-- `generatePrototile(m, k, n)`.  Note: when `n < k` the source logs
`"Parameter Error: n must be >= k"` (twice) but does not return early;
the polygon below is produced unconditionally. -/
noncomputable def generatePrototile (m k n : ℕ) : List Polygon :=
  [prototilePoly m k n]

/-!  Wedge Assembler (`generateWedge`). -/

/-- The `(r, c)` pairs visited by the nested loop
`for (r = 0; r < rows; r++) for (c = 0; c <= r; c++)`, in loop order. -/
def rcList : ℕ → List (ℕ × ℕ)
  | 0 => []
  | rows + 1 => rcList rows ++ (List.range (rows + 1)).map fun c => (rows, c)

/-- `d0`: vector sum of the direction vectors of `l_seq`'s entries,
excluding the trailing sentinel `k` (the source re-runs the sequence loop
with the same break condition and sums `getVector(l_seq[j])`, and
`l_seq[j] = (j·m) mod k` on the non-broken range). -/
noncomputable def d0 (m k n : ℕ) : Point :=
  (((List.range k).takeWhile fun j => j == 0 || (j * m) % k != 0).map
    fun j => getVector n ((j * m) % k)).foldl
    (fun acc v => (acc.1 + v.1, acc.2 + v.2)) ((0 : ℝ), (0 : ℝ))

/-- `d1 = getVector(k) − getVector(0)`. -/
noncomputable def d1 (k n : ℕ) : Point :=
  ((getVector n k).1 - (getVector n 0).1, (getVector n k).2 - (getVector n 0).2)

/-- `generateWedge(m, k, n, rows)`: a triangular array of shifted
prototile copies.  The tile for `(r, c)` is shifted by `r·d0 + c·d1`;
`tileIndex` increments by one per produced tile, which is its position in
the flattened loop order (`List.enum`). -/
noncomputable def generateWedge (cfg : Config) (ptype : PaletteType)
    (m k n rows : ℕ) : List Polygon :=
  let basePolygons := generatePrototile m k n
  match basePolygons.head? with
  | none => basePolygons
  | some basePoly =>
    if basePoly.path.length = 0 then basePolygons
    else
      let palette := generatePalette cfg.colorCount ptype
      (rcList rows).enum.map fun ti_rc =>
        let ti : ℕ := ti_rc.1
        let r : ℕ := ti_rc.2.1
        let c : ℕ := ti_rc.2.2
        let shiftX : ℝ := (r : ℝ) * (d0 m k n).1 + (c : ℝ) * (d1 k n).1
        let shiftY : ℝ := (r : ℝ) * (d0 m k n).2 + (c : ℝ) * (d1 k n).2
        { path := basePoly.path.map fun p => (p.1 + shiftX, p.2 + shiftY),
          color := palette.getD (getColorIndex cfg m k n r c 0) Color.undef,
          stroke := "#888",
          meta := { closureError := none, hasShortPeriod := none,
                    wedgeIndex := some 0, tileIndex := some ti,
                    r := some r, c := some c, isCopy := none } }

/-!  Tiling Placer (`generateTiling`, front-tracking). -/

/-- The inner scan
`for (idx = 0; idx < front.length; idx++) if (front[idx] == i) { j_star = idx; break; }`:
the first (least) index whose entry equals `target`, or `none`. -/
def findFirstIdx (target : ℕ) : List ℕ → Option ℕ
  | [] => none
  | d :: rest =>
    if d = target then some 0 else (findFirstIdx target rest).map (· + 1)

/-- The mutable state of the placement loop: the accumulated
`this.polygons` list and the `front_directions` array. -/
structure TilingState where
  polygons : List Polygon
  front : List ℕ

/-- The `addTransformedWedge` helper: rotate each point of each polygon
by `rotationIndex · (2π/n)` about the origin, translate by
`(offsetX, offsetY)`, recompute the color from `(r, c, rotationIndex)`
and overwrite `meta.wedgeIndex` with `rotationIndex` (spreading the rest
of the metadata).  The `colorOffset` parameter of the source is unused by
its body and is omitted.  The palette-regeneration guard inside the
helper always yields the palette of `cfg.colorCount` and `ptype`, which
is what we pass directly. -/
noncomputable def addTransformedWedge (cfg : Config) (ptype : PaletteType)
    (m k n : ℕ) (polys : List Polygon) (offsetX offsetY : ℝ)
    (rotationIndex : ℕ) : List Polygon :=
  let unit_angle : ℝ := 2 * Real.pi / (n : ℝ)
  let rotAngle : ℝ := (rotationIndex : ℝ) * unit_angle
  let palette := generatePalette cfg.colorCount ptype
  polys.map fun p =>
    { path := p.path.map fun pt =>
        (pt.1 * Real.cos rotAngle - pt.2 * Real.sin rotAngle + offsetX,
         pt.1 * Real.sin rotAngle + pt.2 * Real.cos rotAngle + offsetY),
      color := palette.getD
        (getColorIndex cfg m k n (p.meta.r.getD 0) (p.meta.c.getD 0)
          rotationIndex) Color.undef,
      stroke := "#888",
      meta := { p.meta with wedgeIndex := some rotationIndex } }

/-- One iteration of the placement loop for wedge `i`: find `j_star` in
the front; if absent, warn and `continue` (state unchanged); otherwise
sum the direction vectors of `front[0 .. j_star-1]`, add the transformed
wedge, and set `front[j_star] := i + k`. -/
noncomputable def tilingStep (cfg : Config) (ptype : PaletteType)
    (m k n : ℕ) (baseWedge : List Polygon) (s : TilingState) (i : ℕ) :
    TilingState :=
  match findFirstIdx i s.front with
  | none => s
  | some jStar =>
    let start : Point := ((s.front.take jStar).map (getVector n)).foldl
      (fun acc v => (acc.1 + v.1, acc.2 + v.2)) ((0 : ℝ), (0 : ℝ))
    { polygons := s.polygons ++
        addTransformedWedge cfg ptype m k n baseWedge start.1 start.2 i,
      front := s.front.set jStar (i + k) }

/-- The integer bound of the placement loop.  The source computes
`w_limit = isOffset ? n / 2 : n` in floating point and runs
`for (i = 1; i < w_limit; i++)`; for an integer counter `i`,
`i < n / 2` is exactly `i < ⌈n / 2⌉ = (n + 1) / 2` in `Nat`. -/
def wLimit (n : ℕ) (isOffset : Bool) : ℕ :=
  if isOffset then (n + 1) / 2 else n

/-- The list of wedge indices the placement loop iterates over. -/
def tilingIter (n : ℕ) (isOffset : Bool) : List ℕ :=
  List.range' 1 (wLimit n isOffset - 1)

/-- The state before the placement loop: wedge 0 placed at the origin
with rotation 0, and the front set to `u_seq` with its trailing element
removed (`u_seq.slice(0, u_seq.length - 1)`). -/
noncomputable def tilingInit (cfg : Config) (ptype : PaletteType)
    (m k n rows : ℕ) : TilingState :=
  { polygons := addTransformedWedge cfg ptype m k n
      (generateWedge cfg ptype m k n rows) 0 0 0,
    front := (u_seq m k).dropLast }

/-- The state after the whole placement loop. -/
noncomputable def tilingFinal (cfg : Config) (ptype : PaletteType)
    (m k n rows : ℕ) (isOffset : Bool) : TilingState :=
  (tilingIter n isOffset).foldl
    (tilingStep cfg ptype m k n (generateWedge cfg ptype m k n rows))
    (tilingInit cfg ptype m k n rows)

/-- The polygon list produced before the offset-mode reflection
(the "primary pass"), including the early `return []` taken when the
base wedge is empty. -/
noncomputable def tilingPrimary (cfg : Config) (ptype : PaletteType)
    (m k n rows : ℕ) (isOffset : Bool) : List Polygon :=
  if (generateWedge cfg ptype m k n rows).length = 0 then []
  else (tilingFinal cfg ptype m k n rows isOffset).polygons

/-- The offset-mode pivot: half of `getVector(0)` (the midpoint of the
first edge of wedge 0). -/
noncomputable def pivot (n : ℕ) : Point :=
  ((getVector n 0).1 / 2, (getVector n 0).2 / 2)

/-- The offset-mode point reflection of one polygon about the pivot:
each point `p` becomes `2·pivot − p`; color and stroke are copied; the
metadata is spread with `isCopy := true` and `wedgeIndex` increased by
`10000`. -/
noncomputable def pointReflect (n : ℕ) (p : Polygon) : Polygon :=
  { path := p.path.map fun pt =>
      (2 * (pivot n).1 - pt.1, 2 * (pivot n).2 - pt.2),
    color := p.color,
    stroke := p.stroke,
    meta := { p.meta with
              isCopy := some true
              wedgeIndex := p.meta.wedgeIndex.map (· + 10000) } }

/-- `generateTiling(m, k, n, rows, isOffset)`: returns `[]` when the base
wedge is empty; otherwise runs the placement loop and, in offset mode,
appends the point reflection of every placed polygon. -/
noncomputable def generateTiling (cfg : Config) (ptype : PaletteType)
    (m k n rows : ℕ) (isOffset : Bool) : List Polygon :=
  if (generateWedge cfg ptype m k n rows).length = 0 then []
  else
    let sF := tilingFinal cfg ptype m k n rows isOffset
    if isOffset then sF.polygons ++ sF.polygons.map (pointReflect n)
    else sF.polygons

/-- The tile built by `generateWedge` for entry `(tileIndex, (r, c))`. -/
noncomputable def wedgeTile (cfg : Config) (ptype : PaletteType)
    (m k n : ℕ) (ti_rc : ℕ × ℕ × ℕ) : Polygon :=
  { path := (prototilePath m k n).map fun p =>
      (p.1 + ((ti_rc.2.1 : ℝ) * (d0 m k n).1 + (ti_rc.2.2 : ℝ) * (d1 k n).1),
       p.2 + ((ti_rc.2.1 : ℝ) * (d0 m k n).2 + (ti_rc.2.2 : ℝ) * (d1 k n).2)),
    color := (generatePalette cfg.colorCount ptype).getD
      (getColorIndex cfg m k n ti_rc.2.1 ti_rc.2.2 0) Color.undef,
    stroke := "#888",
    meta := { closureError := none, hasShortPeriod := none,
              wedgeIndex := some 0, tileIndex := some ti_rc.1,
              r := some ti_rc.2.1, c := some ti_rc.2.2, isCopy := none } }

/-- The translation applied to the wedge placed at front position `j`:
the vector sum of the direction vectors of `front[0 .. j-1]`. -/
noncomputable def frontOffset (n : ℕ) (front : List ℕ) (j : ℕ) : Point :=
  ((front.take j).map (getVector n)).foldl
    (fun acc v => (acc.1 + v.1, acc.2 + v.2)) ((0 : ℝ), (0 : ℝ))

/-!  Helper lemmas: wedge-index bookkeeping. -/

/-- The wedge indices of a polygon list (defaulting absent ones to 0). -/
def wedgeIdxs (ps : List Polygon) : List ℕ :=
  ps.map fun p => p.meta.wedgeIndex.getD 0

/-!  Helper lemmas: color-independence of the geometry. -/

/-- The color-free part of a polygon: path, stroke and metadata. -/
def polyGeom (p : Polygon) : List Point × String × Meta :=
  (p.path, p.stroke, p.meta)

/-- The effect of `addTransformedWedge` on the color-free part. -/
noncomputable def geomTransform (n : ℕ) (ox oy : ℝ) (i : ℕ)
    (g : List Point × String × Meta) : List Point × String × Meta :=
  (g.1.map fun pt =>
     (pt.1 * Real.cos ((i : ℝ) * (2 * Real.pi / (n : ℝ))) -
        pt.2 * Real.sin ((i : ℝ) * (2 * Real.pi / (n : ℝ))) + ox,
      pt.1 * Real.sin ((i : ℝ) * (2 * Real.pi / (n : ℝ))) +
        pt.2 * Real.cos ((i : ℝ) * (2 * Real.pi / (n : ℝ))) + oy),
   "#888",
   { g.2.2 with wedgeIndex := some i })

/-- The effect of `pointReflect` on the color-free part. -/
noncomputable def reflectGeom (n : ℕ) (g : List Point × String × Meta) :
    List Point × String × Meta :=
  (g.1.map fun pt => (2 * (pivot n).1 - pt.1, 2 * (pivot n).2 - pt.2),
   g.2.1,
   { g.2.2 with
     isCopy := some true
     wedgeIndex := g.2.2.wedgeIndex.map (· + 10000) })

/-- The saturation component of a color (`-1` for non-`hsla` colors). -/
def colorSat : Color → ℤ
  | .hsla _ s _ _ => s
  | _ => -1

example : l_seq 3 7 = [0, 3, 6, 2, 5, 1, 4, 7] := by decide
example : u_seq 3 7 = [7, 3, 6, 2, 5, 1, 4, 0] := by decide
example : hasShortPeriod 3 7 = false := by decide
example : l_seq 2 4 = [0, 2, 4] := by decide
example : u_seq 2 4 = [4, 2, 0] := by decide
example : hasShortPeriod 2 4 = true := by decide

example : getColorIndex tilingConfig 3 7 14 1 1 3 = 2 := by decide
example : getColorIndex tilingConfig 3 7 14 0 0 20 = 2 := by decide
example : getColorIndex tilingConfig 0 7 14 5 5 7 = 1 := by decide

example : rcList 3 = [(0, 0), (1, 0), (1, 1), (2, 0), (2, 1), (2, 2)] := by decide

/-!  Helper lemmas: lists. -/

theorem takeWhile_of_all {p : ℕ → Bool} {l : List ℕ}
    (h : ∀ a ∈ l, p a = true) : l.takeWhile p = l := by
  induction l with
  | nil => rfl
  | cons a t ih =>
    have ht : List.takeWhile p t = t := ih fun x hx => h x (by simp [hx])
    simp [List.takeWhile_cons, h a (by simp), ht]

theorem takeWhile_until {p : ℕ → Bool} {l1 l2 : List ℕ} {a : ℕ}
    (h1 : ∀ x ∈ l1, p x = true) (h2 : p a = false) :
    (l1 ++ a :: l2).takeWhile p = l1 := by
  induction l1 with
  | nil => simp [List.takeWhile_cons, h2]
  | cons b t ih =>
    have ht := ih fun x hx => h1 x (by simp [hx])
    simp [List.takeWhile_cons, h1 b (by simp), ht]

theorem range_eq_cons_range' {k : ℕ} (hk : 0 < k) :
    List.range k = 0 :: List.range' 1 (k - 1) := by
  rw [List.range_eq_range']
  cases k with
  | zero => omega
  | succ m => simp [List.range'_succ]

theorem foldl_point_add (l : List Point) (z : Point) :
    l.foldl (fun acc v => (acc.1 + v.1, acc.2 + v.2)) z = z + l.sum := by
  induction l generalizing z with
  | nil => simp
  | cons a t ih =>
    rw [List.foldl_cons, ih, List.sum_cons, ← add_assoc]
    rfl

theorem scanl_getLast? (f : Point → Point → Point) :
    ∀ (l : List Point) (b : Point),
    (List.scanl f b l).getLast? = some (l.foldl f b)
  | [], _ => rfl
  | a :: t, b => by
    rw [List.scanl]
    have h := scanl_getLast? f t (f b a)
    cases ht : List.scanl f (f b a) t with
    | nil =>
      have hlen : (List.scanl f (f b a) t).length = t.length + 1 :=
        List.length_scanl _ _
      rw [ht] at hlen
      simp at hlen
    | cons c rest =>
      rw [ht] at h
      rw [List.getLast?_cons_cons, h, List.foldl_cons]

/-!  Helper lemmas: boundary sequences and short-period detection. -/

/-- With `gcd(m,k) = 1`, no interior index breaks the sequence loops. -/
theorem no_break_of_coprime {m k : ℕ} (hg : Nat.gcd m k = 1)
    {j : ℕ} (hj0 : 0 < j) (hjk : j < k) : (j * m) % k ≠ 0 := by
  intro h
  have hdvd : k ∣ j * m := Nat.dvd_of_mod_eq_zero h
  have hco : Nat.Coprime k m := Nat.coprime_comm.mp hg
  have hkj : k ∣ j := (Nat.Coprime.dvd_of_dvd_mul_right hco) hdvd
  have := Nat.le_of_dvd hj0 hkj
  omega

/-- With `gcd(m,k) > 1`, some interior index breaks the loops. -/
theorem break_of_not_coprime {m k : ℕ} (hk : 0 < k)
    (hg : 1 < Nat.gcd m k) : ∃ j, 0 < j ∧ j < k ∧ (j * m) % k = 0 := by
  have hgk : Nat.gcd m k ∣ k := Nat.gcd_dvd_right m k
  have hgm : Nat.gcd m k ∣ m := Nat.gcd_dvd_left m k
  refine ⟨k / Nat.gcd m k, ?_, ?_, ?_⟩
  · exact Nat.div_pos (Nat.le_of_dvd hk hgk) (by omega)
  · exact Nat.div_lt_self hk hg
  · have h1 : m / Nat.gcd m k * Nat.gcd m k = m := Nat.div_mul_cancel hgm
    have h2 : k / Nat.gcd m k * Nat.gcd m k = k := Nat.div_mul_cancel hgk
    have hmul : k / Nat.gcd m k * m = k * (m / Nat.gcd m k) := by
      calc k / Nat.gcd m k * m
          = k / Nat.gcd m k * (m / Nat.gcd m k * Nat.gcd m k) := by rw [h1]
        _ = k / Nat.gcd m k * Nat.gcd m k * (m / Nat.gcd m k) := by ring
        _ = k * (m / Nat.gcd m k) := by rw [h2]
    rw [hmul]
    exact Nat.mul_mod_right _ _

theorem hasShortPeriod_iff {m k : ℕ} :
    hasShortPeriod m k = true ↔ ∃ j, 0 < j ∧ j < k ∧ (j * m) % k = 0 := by
  unfold hasShortPeriod
  rw [List.any_eq_true]
  constructor
  · rintro ⟨j, hj, hmod⟩
    rw [List.mem_range'_1] at hj
    exact ⟨j, by omega, by omega, by simpa using hmod⟩
  · rintro ⟨j, hj0, hjk, hmod⟩
    exact ⟨j, by rw [List.mem_range'_1]; omega, by simpa using hmod⟩

/-- Structure of `l_seq` when no break occurs. -/
theorem l_seq_of_no_break {m k : ℕ}
    (h : ∀ j, 0 < j → j < k → (j * m) % k ≠ 0) :
    l_seq m k = (List.range k).map (fun j => (j * m) % k) ++ [k] := by
  unfold l_seq
  rw [takeWhile_of_all]
  intro a ha
  rw [List.mem_range] at ha
  rcases Nat.eq_zero_or_pos a with h0 | h0
  · simp [h0]
  · simp [Nat.pos_iff_ne_zero.mp h0, h a h0 ha]

/-- Structure of `u_seq` when no break occurs. -/
theorem u_seq_of_no_break {m k : ℕ}
    (h : ∀ j, 0 < j → j < k → (j * m) % k ≠ 0) :
    u_seq m k =
      k :: ((List.range' 1 (k - 1)).map (fun j => (j * m) % k) ++ [0]) := by
  unfold u_seq
  rw [takeWhile_of_all]
  intro a ha
  rw [List.mem_range'_1] at ha
  simp [h a (by omega) (by omega)]

/-- Splitting a `range'` at an interior point. -/
theorem range'_split (s m n : ℕ) (h : m ≤ n) :
    List.range' s n = List.range' s m ++ List.range' (s + m) (n - m) := by
  have happ := List.range'_append s m (n - m) 1
  rw [Nat.one_mul] at happ
  conv_lhs => rw [show n = n - m + m by omega]
  exact happ.symm

/-- Structure of `l_seq` when the loop breaks at the least offending
index `j0`. -/
theorem l_seq_of_break {m k j0 : ℕ} (hj0 : 0 < j0) (hjk : j0 < k)
    (hmod : (j0 * m) % k = 0)
    (hleast : ∀ j, 0 < j → j < j0 → (j * m) % k ≠ 0) :
    l_seq m k = (List.range j0).map (fun j => (j * m) % k) ++ [k] := by
  unfold l_seq
  have hsplit : List.range k =
      List.range j0 ++ j0 :: List.range' (j0 + 1) (k - j0 - 1) := by
    rw [List.range_eq_range', range'_split 0 j0 k (by omega), Nat.zero_add]
    have hsucc : List.range' j0 (k - j0) =
        j0 :: List.range' (j0 + 1) (k - j0 - 1) := by
      conv_lhs => rw [show k - j0 = (k - j0 - 1) + 1 by omega]
      rw [List.range'_succ]
    rw [hsucc, List.range_eq_range']
  rw [hsplit, takeWhile_until]
  · intro x hx
    rw [List.mem_range] at hx
    rcases Nat.eq_zero_or_pos x with h0 | h0
    · simp [h0]
    · simp [Nat.pos_iff_ne_zero.mp h0, hleast x h0 hx]
  · simp [Nat.pos_iff_ne_zero.mp hj0, hmod]

/-- Structure of `u_seq` when the loop breaks at the least offending
index `j0`. -/
theorem u_seq_of_break {m k j0 : ℕ} (hj0 : 0 < j0) (hjk : j0 < k)
    (hmod : (j0 * m) % k = 0)
    (hleast : ∀ j, 0 < j → j < j0 → (j * m) % k ≠ 0) :
    u_seq m k =
      k :: ((List.range' 1 (j0 - 1)).map (fun j => (j * m) % k) ++ [0]) := by
  unfold u_seq
  have hsplit : List.range' 1 (k - 1) =
      List.range' 1 (j0 - 1) ++ j0 :: List.range' (j0 + 1) (k - 1 - (j0 - 1) - 1) := by
    rw [range'_split 1 (j0 - 1) (k - 1) (by omega)]
    have h1 : 1 + (j0 - 1) = j0 := by omega
    rw [h1]
    have hsucc : List.range' j0 (k - 1 - (j0 - 1)) =
        j0 :: List.range' (j0 + 1) (k - 1 - (j0 - 1) - 1) := by
      conv_lhs => rw [show k - 1 - (j0 - 1) = (k - 1 - (j0 - 1) - 1) + 1 by omega]
      rw [List.range'_succ]
    rw [hsucc]
  rw [hsplit, takeWhile_until]
  · intro x hx
    rw [List.mem_range'_1] at hx
    simp [hleast x (by omega) (by omega)]
  · simp [hmod]

/-- C5: for positive `m, k` the boundary sequence builder produces
`L = [(j·m) mod k for j = 0..k-1] ++ [k]` and
`U = [k] ++ [(j·m) mod k for j = 1..k-1] ++ [0]`, both stopping early at
the first interior `j` with `(j·m) mod k = 0`; `hasShortPeriod` is true
exactly when such an early stop occurred, which happens whenever
`gcd(m,k) > 1`, in which case the truncated sequences have fewer than
`k + 1` entries; and for `(m, k) = (3, 7)` the concrete sequences are as
stated with `hasShortPeriod = false`. -/
theorem c5_boundary_sequences (m k : ℕ) (hm : 0 < m) (hk : 0 < k) :
    ((hasShortPeriod m k = true ↔ ∃ j, 0 < j ∧ j < k ∧ (j * m) % k = 0) ∧
     (hasShortPeriod m k = false →
       l_seq m k = (List.range k).map (fun j => (j * m) % k) ++ [k] ∧
       u_seq m k =
         k :: ((List.range' 1 (k - 1)).map (fun j => (j * m) % k) ++ [0])) ∧
     (∀ j0, 0 < j0 → j0 < k → (j0 * m) % k = 0 →
       (∀ j, 0 < j → j < j0 → (j * m) % k ≠ 0) →
       l_seq m k = (List.range j0).map (fun j => (j * m) % k) ++ [k] ∧
       u_seq m k =
         k :: ((List.range' 1 (j0 - 1)).map (fun j => (j * m) % k) ++ [0])) ∧
     (1 < Nat.gcd m k → hasShortPeriod m k = true ∧
       (l_seq m k).length < k + 1 ∧ (u_seq m k).length < k + 1)) ∧
    l_seq 3 7 = [0, 3, 6, 2, 5, 1, 4, 7] ∧
    u_seq 3 7 = [7, 3, 6, 2, 5, 1, 4, 0] ∧
    hasShortPeriod 3 7 = false := by
  refine ⟨⟨hasShortPeriod_iff, ?_, ?_, ?_⟩, by decide, by decide, by decide⟩
  · intro hfalse
    have hno : ∀ j, 0 < j → j < k → (j * m) % k ≠ 0 := by
      intro j hj0 hjk hmod
      have : hasShortPeriod m k = true := hasShortPeriod_iff.mpr ⟨j, hj0, hjk, hmod⟩
      rw [hfalse] at this
      exact Bool.false_ne_true this
    exact ⟨l_seq_of_no_break hno, u_seq_of_no_break hno⟩
  · intro j0 hj0 hjk hmod hleast
    exact ⟨l_seq_of_break hj0 hjk hmod hleast, u_seq_of_break hj0 hjk hmod hleast⟩
  · intro hgcd
    obtain ⟨j, hj0, hjk, hmod⟩ := break_of_not_coprime hk hgcd
    have hstop : hasShortPeriod m k = true := hasShortPeriod_iff.mpr ⟨j, hj0, hjk, hmod⟩
    refine ⟨hstop, ?_⟩
    have hex : ∃ i, 0 < i ∧ i < k ∧ (i * m) % k = 0 := ⟨j, hj0, hjk, hmod⟩
    classical
    set j0 := Nat.find hex with hj0def
    obtain ⟨hja, hjb, hjc⟩ := Nat.find_spec hex
    have hleast : ∀ i, 0 < i → i < j0 → (i * m) % k ≠ 0 := by
      intro i hi0 hij hmod'
      exact Nat.find_min hex hij ⟨hi0, by omega, hmod'⟩
    have hl := l_seq_of_break hja hjb hjc hleast
    have hu := u_seq_of_break hja hjb hjc hleast
    rw [hl, hu]
    have hlen1 : ((List.range j0).map (fun j => (j * m) % k) ++ [k]).length = j0 + 1 := by
      simp
    have hlen2 : (k :: ((List.range' 1 (j0 - 1)).map (fun j => (j * m) % k) ++ [0])).length
        = j0 + 1 := by
      simp
      omega
    rw [hlen1, hlen2]
    omega

/-- Witness for `c5_boundary_sequences` at `(m, k) = (3, 7)`. -/
theorem c5_boundary_sequences_witness :
    l_seq 3 7 = [0, 3, 6, 2, 5, 1, 4, 7] ∧
    u_seq 3 7 = [7, 3, 6, 2, 5, 1, 4, 0] ∧
    hasShortPeriod 3 7 = false :=
  (c5_boundary_sequences 3 7 (by decide) (by decide)).2

/-- C9: `getColorIndex` always returns an index below `colorCount`
(when `colorCount > 0`), and — with parameters set and no explicit
per-wedge configuration entry — it equals
`(baseIndex + startColor) mod colorCount` with
`baseIndex = (colorCount − ((r+c) mod colorCount)) mod colorCount` when
`wedgeIndex` is odd (the default `reverse`) and `(r+c) mod colorCount`
otherwise, and `startColor = wedgeIndex mod colorCount`. -/
theorem c9_color_index (cfg : Config) (m k n r c wedgeIndex : ℕ)
    (hcount : 0 < cfg.colorCount) :
    getColorIndex cfg m k n r c wedgeIndex < cfg.colorCount ∧
    (0 < m → 0 < k → 0 < n → ruleFor cfg m k n wedgeIndex = none →
      getColorIndex cfg m k n r c wedgeIndex =
        ((if wedgeIndex % 2 ≠ 0 then
            (cfg.colorCount - (r + c) % cfg.colorCount) % cfg.colorCount
          else (r + c) % cfg.colorCount) +
          wedgeIndex % cfg.colorCount) % cfg.colorCount) := by
  constructor
  · unfold getColorIndex
    rcases hb : (m == 0 || k == 0 || n == 0) with _ | _
    · simp only [hb, Bool.false_eq_true, if_false]
      exact Nat.mod_lt _ hcount
    · simp only [hb, if_true]
      exact Nat.mod_lt _ hcount
  · intro hm hk hn hrule
    unfold getColorIndex
    have hb : (m == 0 || k == 0 || n == 0) = false := by
      simp only [Bool.or_eq_false_iff, beq_eq_false_iff_ne]
      omega
    simp only [hb, Bool.false_eq_true, if_false, hrule, Option.getD_none]
    rcases Nat.mod_two_eq_zero_or_one wedgeIndex with h2 | h2
    · simp [h2]
    · simp [h2]

/-- Witness for `c9_color_index`: concrete evaluation at the shipped
configuration with a wedge index that has no explicit entry. -/
theorem c9_color_index_witness :
    getColorIndex tilingConfig 3 7 14 2 1 21 < 3 ∧
    getColorIndex tilingConfig 3 7 14 2 1 21 =
      ((if 21 % 2 ≠ 0 then (3 - (2 + 1) % 3) % 3 else (2 + 1) % 3) +
        21 % 3) % 3 := by
  have h := c9_color_index tilingConfig 3 7 14 2 1 21 (by decide)
  exact ⟨h.1, h.2 (by decide) (by decide) (by decide) (by decide)⟩

/-- Summing the negations of a list of vectors negates the sum. -/
theorem sum_map_neg_point (v : ℕ → Point) (l : List ℕ) :
    (l.map fun d => (-(v d).1, -(v d).2)).sum = -((l.map v).sum) := by
  induction l with
  | nil => simp
  | cons a t ih =>
    simp only [List.map_cons, List.sum_cons, ih]
    have : ((-(v a).1, -(v a).2) : Point) = -(v a) := rfl
    rw [this, neg_add]

/-- Under coprimality the forward and backward boundary walks traverse
the same multiset of direction vectors. -/
theorem sum_l_eq_sum_u {m k : ℕ} (n : ℕ) (hg : Nat.gcd m k = 1)
    (hk : 0 < k) :
    ((l_seq m k).map (getVector n)).sum =
      ((u_seq m k).map (getVector n)).sum := by
  have hno : ∀ j, 0 < j → j < k → (j * m) % k ≠ 0 := fun j hj0 hjk =>
    no_break_of_coprime hg hj0 hjk
  rw [l_seq_of_no_break hno, u_seq_of_no_break hno]
  rw [range_eq_cons_range' hk]
  simp only [List.map_append, List.map_cons, List.sum_append, List.sum_cons,
    List.map_map, List.sum_nil, List.map_nil]
  have hf0 : (0 * m) % k = 0 := by simp
  rw [hf0]
  abel

/-- C3: for coprime `(m, k)` with `1 ≤ m < k` and `n ≥ k`, the prototile
path closes exactly: the final accumulated position is the origin, the
last recorded path point is the origin, and the reported closure error is
exactly `0` in exact arithmetic. -/
theorem c3_closure (m k n : ℕ) (hg : Nat.gcd m k = 1) (hm : 1 ≤ m)
    (hmk : m < k) (hkn : k ≤ n) :
    prototileFinal m k n = ((0 : ℝ), (0 : ℝ)) ∧
    (prototilePath m k n).getLast? = some ((0 : ℝ), (0 : ℝ)) ∧
    closureError m k n = 0 := by
  have hk : 0 < k := by omega
  have hfinal : prototileFinal m k n = ((0 : ℝ), (0 : ℝ)) := by
    unfold prototileFinal prototileSteps
    rw [foldl_point_add]
    rw [List.sum_append, sum_map_neg_point, List.map_reverse, List.sum_reverse]
    rw [sum_l_eq_sum_u n hg hk, add_neg_cancel, add_zero]
  refine ⟨hfinal, ?_, ?_⟩
  · unfold prototilePath
    rw [scanl_getLast?]
    exact congrArg some hfinal
  · unfold closureError
    rw [hfinal]
    simp

/-- Witness for `c3_closure` at `(m, k, n) = (3, 7, 14)`. -/
theorem c3_closure_witness :
    prototileFinal 3 7 14 = ((0 : ℝ), (0 : ℝ)) ∧
    (prototilePath 3 7 14).getLast? = some ((0 : ℝ), (0 : ℝ)) ∧
    closureError 3 7 14 = 0 :=
  c3_closure 3 7 14 (by decide) (by decide) (by decide) (by decide)

/-!  Helper lemmas: wedge assembly. -/

theorem prototilePath_length_ne_zero (m k n : ℕ) :
    (prototilePath m k n).length ≠ 0 := by
  unfold prototilePath
  rw [List.length_scanl]
  exact Nat.succ_ne_zero _

/-- `generateWedge` in closed form: the guards never fire and every tile
is a `wedgeTile`. -/
theorem generateWedge_eq (cfg : Config) (ptype : PaletteType)
    (m k n rows : ℕ) :
    generateWedge cfg ptype m k n rows =
      (rcList rows).enum.map (wedgeTile cfg ptype m k n) := by
  have hlen : ¬((prototilePoly m k n).path.length = 0) :=
    prototilePath_length_ne_zero m k n
  unfold generateWedge
  show (if (prototilePoly m k n).path.length = 0 then _ else _) = _
  rw [if_neg hlen]
  rfl

theorem mem_rcList {rows r c : ℕ} :
    (r, c) ∈ rcList rows ↔ r < rows ∧ c ≤ r := by
  induction rows with
  | zero => simp [rcList]
  | succ t ih =>
    simp only [rcList, List.mem_append, List.mem_map, List.mem_range, ih,
      Prod.mk.injEq]
    constructor
    · rintro (⟨h1, h2⟩ | ⟨a, ha, h1, h2⟩) <;> omega
    · rintro ⟨h1, h2⟩
      by_cases hr : r < t
      · exact Or.inl ⟨hr, h2⟩
      · exact Or.inr ⟨c, by omega, by omega, rfl⟩

theorem rcList_pairwise (rows : ℕ) :
    List.Pairwise
      (fun a b : ℕ × ℕ => a.1 < b.1 ∨ (a.1 = b.1 ∧ a.2 < b.2))
      (rcList rows) := by
  induction rows with
  | zero => exact List.Pairwise.nil
  | succ t ih =>
    rw [rcList, List.pairwise_append]
    refine ⟨ih, ?_, ?_⟩
    · rw [List.pairwise_map]
      exact (List.pairwise_lt_range (t + 1)).imp fun h => Or.inr ⟨rfl, h⟩
    · rintro ⟨a1, a2⟩ ha b hb
      obtain ⟨cc, hcc, rfl⟩ := List.mem_map.mp hb
      have := mem_rcList.mp ha
      exact Or.inl (by omega)

theorem rcList_length (rows : ℕ) :
    2 * (rcList rows).length = rows * (rows + 1) := by
  induction rows with
  | zero => rfl
  | succ t ih =>
    rw [rcList, List.length_append, List.length_map, List.length_range,
      Nat.mul_add, ih]
    ring

theorem rcList_length_div (rows : ℕ) :
    (rcList rows).length = rows * (rows + 1) / 2 := by
  have h := rcList_length rows
  generalize hP : rows * (rows + 1) = P at h ⊢
  omega

theorem enum_map_comp_snd {α : Type} (l : List (ℕ × ℕ)) (g : ℕ × ℕ → α) :
    l.enum.map (fun x => g x.2) = l.map g := by
  have h1 : l.enum.map (fun x => g x.2) = (l.enum.map Prod.snd).map g := by
    rw [List.map_map]
    rfl
  rw [h1, List.enum_map_snd]

/-- C6: `generateWedge(m, k, n, rows)` produces exactly
`rows·(rows+1)/2` polygons, one per pair `(r, c)` with `0 ≤ c ≤ r < rows`
in row-major order, with sequential `tileIndex` values `0..count-1`;
each polygon is the prototile path translated by `r·d0 + c·d1`, where
`d0` is the vector sum of the direction vectors of `l_seq` without its
trailing sentinel and `d1 = getVector(k) − getVector(0)`. -/
theorem c6_generateWedge (cfg : Config) (ptype : PaletteType)
    (m k n rows : ℕ) :
    (generateWedge cfg ptype m k n rows).length = rows * (rows + 1) / 2 ∧
    (generateWedge cfg ptype m k n rows).map (fun p => p.meta.tileIndex) =
      (List.range (generateWedge cfg ptype m k n rows).length).map some ∧
    (generateWedge cfg ptype m k n rows).map
        (fun p => (p.meta.r, p.meta.c)) =
      (rcList rows).map (fun rc => (some rc.1, some rc.2)) ∧
    (∀ r c, (r, c) ∈ rcList rows ↔ r < rows ∧ c ≤ r) ∧
    List.Pairwise (fun a b : ℕ × ℕ => a.1 < b.1 ∨ (a.1 = b.1 ∧ a.2 < b.2))
      (rcList rows) ∧
    (generateWedge cfg ptype m k n rows).map (fun p => p.path) =
      (rcList rows).map (fun rc => (prototilePath m k n).map fun p =>
        (p.1 + ((rc.1 : ℝ) * (d0 m k n).1 + (rc.2 : ℝ) * (d1 k n).1),
         p.2 + ((rc.1 : ℝ) * (d0 m k n).2 + (rc.2 : ℝ) * (d1 k n).2))) ∧
    d0 m k n = (((l_seq m k).dropLast).map (getVector n)).foldl
      (fun acc v => (acc.1 + v.1, acc.2 + v.2)) ((0 : ℝ), (0 : ℝ)) ∧
    d1 k n = ((getVector n k).1 - (getVector n 0).1,
              (getVector n k).2 - (getVector n 0).2) := by
  have hW := generateWedge_eq cfg ptype m k n rows
  have hlen : (generateWedge cfg ptype m k n rows).length =
      (rcList rows).length := by
    rw [hW, List.length_map, List.enum_length]
  refine ⟨?_, ?_, ?_, fun r c => mem_rcList, rcList_pairwise rows, ?_, ?_, rfl⟩
  · rw [hlen, rcList_length_div]
  · rw [hlen, hW, List.map_map]
    have h1 : ((rcList rows).enum.map
        ((fun p => p.meta.tileIndex) ∘ wedgeTile cfg ptype m k n)) =
        ((rcList rows).enum.map Prod.fst).map some := by
      rw [List.map_map]
      rfl
    rw [h1, List.enum_map_fst]
  · rw [hW, List.map_map]
    exact enum_map_comp_snd (rcList rows)
      (fun rc => ((some rc.1 : Option ℕ), (some rc.2 : Option ℕ)))
  · rw [hW, List.map_map]
    exact enum_map_comp_snd (rcList rows)
      (fun rc => (prototilePath m k n).map fun p =>
        (p.1 + ((rc.1 : ℝ) * (d0 m k n).1 + (rc.2 : ℝ) * (d1 k n).1),
         p.2 + ((rc.1 : ℝ) * (d0 m k n).2 + (rc.2 : ℝ) * (d1 k n).2)))
  · unfold d0 l_seq
    rw [List.dropLast_concat, List.map_map]
    rfl

/-!  Helper lemmas: front-tracking placement. -/

theorem findFirstIdx_none_iff {t : ℕ} : ∀ {l : List ℕ},
    findFirstIdx t l = none ↔ ∀ x ∈ l, x ≠ t
  | [] => by simp [findFirstIdx]
  | d :: rest => by
    by_cases hd : d = t
    · simp [findFirstIdx, hd]
    · rw [findFirstIdx, if_neg hd]
      constructor
      · intro h x hx
        rcases List.mem_cons.mp hx with rfl | hx2
        · exact hd
        · have hnone : findFirstIdx t rest = none := by
            cases hfind : findFirstIdx t rest with
            | none => rfl
            | some j =>
              rw [hfind] at h
              simp at h
          exact (findFirstIdx_none_iff.mp hnone) x hx2
      · intro h
        have hnone : findFirstIdx t rest = none :=
          findFirstIdx_none_iff.mpr fun x hx => h x (List.mem_cons_of_mem _ hx)
        rw [hnone]
        rfl

theorem findFirstIdx_some {t : ℕ} : ∀ {l : List ℕ} {j : ℕ},
    findFirstIdx t l = some j →
    j < l.length ∧ l.get? j = some t ∧ ∀ i < j, l.get? i ≠ some t
  | [], j => by simp [findFirstIdx]
  | d :: rest, j => by
    by_cases hd : d = t
    · rw [findFirstIdx, if_pos hd]
      intro h
      obtain rfl : (0 : ℕ) = j := Option.some.inj h
      exact ⟨by simp, by simp [hd], by omega⟩
    · rw [findFirstIdx, if_neg hd]
      intro h
      cases hfind : findFirstIdx t rest with
      | none =>
        rw [hfind] at h
        simp at h
      | some j0 =>
        rw [hfind] at h
        simp only [Option.map_some'] at h
        obtain rfl : j0 + 1 = j := Option.some.inj h
        obtain ⟨h1, h2, h3⟩ := findFirstIdx_some hfind
        refine ⟨by simpa using h1, by simpa using h2, ?_⟩
        intro i hi
        cases i with
        | zero => simpa using fun hdt => absurd hdt hd
        | succ i0 =>
          simp only [List.get?_cons_succ]
          exact h3 i0 (by omega)

theorem tilingStep_of_none {cfg : Config} {ptype : PaletteType}
    {m k n : ℕ} {baseWedge : List Polygon} {s : TilingState} {i : ℕ}
    (h : findFirstIdx i s.front = none) :
    tilingStep cfg ptype m k n baseWedge s i = s := by
  unfold tilingStep
  rw [h]

theorem tilingStep_of_some {cfg : Config} {ptype : PaletteType}
    {m k n : ℕ} {baseWedge : List Polygon} {s : TilingState} {i j : ℕ}
    (h : findFirstIdx i s.front = some j) :
    tilingStep cfg ptype m k n baseWedge s i =
      { polygons := s.polygons ++ addTransformedWedge cfg ptype m k n
          baseWedge (frontOffset n s.front j).1 (frontOffset n s.front j).2 i,
        front := s.front.set j (i + k) } := by
  unfold tilingStep
  rw [h]
  rfl

theorem fold_polygons_prefix (cfg : Config) (ptype : PaletteType)
    (m k n : ℕ) (baseWedge : List Polygon) :
    ∀ (is : List ℕ) (s : TilingState), ∃ t,
    ((is.foldl (tilingStep cfg ptype m k n baseWedge) s).polygons) =
      s.polygons ++ t
  | [], s => ⟨[], by simp⟩
  | i :: rest, s => by
    rw [List.foldl_cons]
    cases h : findFirstIdx i s.front with
    | none =>
      rw [tilingStep_of_none h]
      exact fold_polygons_prefix cfg ptype m k n baseWedge rest s
    | some j =>
      rw [tilingStep_of_some h]
      obtain ⟨t, ht⟩ := fold_polygons_prefix cfg ptype m k n baseWedge rest
        { polygons := s.polygons ++ addTransformedWedge cfg ptype m k n
            baseWedge (frontOffset n s.front j).1 (frontOffset n s.front j).2 i,
          front := s.front.set j (i + k) }
      refine ⟨addTransformedWedge cfg ptype m k n baseWedge
        (frontOffset n s.front j).1 (frontOffset n s.front j).2 i ++ t, ?_⟩
      rw [ht, List.append_assoc]

theorem fold_front_length (cfg : Config) (ptype : PaletteType)
    (m k n : ℕ) (baseWedge : List Polygon) :
    ∀ (is : List ℕ) (s : TilingState),
    ((is.foldl (tilingStep cfg ptype m k n baseWedge) s).front).length =
      s.front.length
  | [], _ => rfl
  | i :: rest, s => by
    rw [List.foldl_cons]
    cases h : findFirstIdx i s.front with
    | none =>
      rw [tilingStep_of_none h]
      exact fold_front_length cfg ptype m k n baseWedge rest s
    | some j =>
      rw [tilingStep_of_some h]
      rw [fold_front_length cfg ptype m k n baseWedge rest]
      exact List.length_set _ _ _

theorem fold_front_mem (cfg : Config) (ptype : PaletteType)
    (m k n : ℕ) (baseWedge : List Polygon) :
    ∀ (is : List ℕ) (s : TilingState) (x : ℕ),
    x ∈ ((is.foldl (tilingStep cfg ptype m k n baseWedge) s).front) →
    x ∈ s.front ∨ ∃ i ∈ is, x = i + k
  | [], _, _ => fun hx => Or.inl hx
  | i :: rest, s, x => by
    rw [List.foldl_cons]
    cases h : findFirstIdx i s.front with
    | none =>
      rw [tilingStep_of_none h]
      intro hx
      rcases fold_front_mem cfg ptype m k n baseWedge rest s x hx with
        h1 | ⟨i0, hi0, hx0⟩
      · exact Or.inl h1
      · exact Or.inr ⟨i0, List.mem_cons_of_mem _ hi0, hx0⟩
    | some j =>
      rw [tilingStep_of_some h]
      intro hx
      rcases fold_front_mem cfg ptype m k n baseWedge rest _ x hx with
        h1 | ⟨i0, hi0, hx0⟩
      · rcases List.mem_or_eq_of_mem_set h1 with h2 | h2
        · exact Or.inl h2
        · exact Or.inr ⟨i, List.mem_cons_self _ _, h2⟩
      · exact Or.inr ⟨i0, List.mem_cons_of_mem _ hi0, hx0⟩

theorem wedgeIdxs_addTransformedWedge (cfg : Config) (ptype : PaletteType)
    (m k n : ℕ) (bw : List Polygon) (ox oy : ℝ) (i : ℕ) :
    wedgeIdxs (addTransformedWedge cfg ptype m k n bw ox oy i) =
      bw.map fun _ => i := by
  unfold wedgeIdxs addTransformedWedge
  rw [List.map_map]
  rfl

theorem pairwise_le_map_const {α : Type} (l : List α) (i : ℕ) :
    List.Pairwise (· ≤ ·) (l.map fun _ => i) := by
  induction l with
  | nil => exact List.Pairwise.nil
  | cons a t ih =>
    rw [List.map_cons, List.pairwise_cons]
    exact ⟨fun x hx => by
      obtain ⟨y, _, rfl⟩ := List.mem_map.mp hx
      exact le_refl i, ih⟩

theorem fold_wedgeIdxs_pairwise (cfg : Config) (ptype : PaletteType)
    (m k n : ℕ) (bw : List Polygon) :
    ∀ (is : List ℕ) (s : TilingState),
    List.Pairwise (· ≤ ·) (wedgeIdxs s.polygons) →
    (∀ w ∈ wedgeIdxs s.polygons, ∀ i ∈ is, w ≤ i) →
    List.Pairwise (· ≤ ·) is →
    List.Pairwise (· ≤ ·)
      (wedgeIdxs ((is.foldl (tilingStep cfg ptype m k n bw) s).polygons))
  | [], s, hs, _, _ => hs
  | i :: rest, s, hs, hbound, hiter => by
    rw [List.foldl_cons]
    rw [List.pairwise_cons] at hiter
    cases h : findFirstIdx i s.front with
    | none =>
      rw [tilingStep_of_none h]
      exact fold_wedgeIdxs_pairwise cfg ptype m k n bw rest s hs
        (fun w hw i2 hi2 => hbound w hw i2 (List.mem_cons_of_mem _ hi2))
        hiter.2
    | some j =>
      rw [tilingStep_of_some h]
      apply fold_wedgeIdxs_pairwise cfg ptype m k n bw rest
      · show List.Pairwise (· ≤ ·) (wedgeIdxs (s.polygons ++ _))
        unfold wedgeIdxs
        rw [List.map_append, List.pairwise_append]
        refine ⟨hs, ?_, ?_⟩
        · have := wedgeIdxs_addTransformedWedge cfg ptype m k n bw
            (frontOffset n s.front j).1 (frontOffset n s.front j).2 i
          unfold wedgeIdxs at this
          rw [this]
          exact pairwise_le_map_const bw i
        · intro x hx y hy
          have hxw : x ∈ wedgeIdxs s.polygons := hx
          have hxy : y = i := by
            have := wedgeIdxs_addTransformedWedge cfg ptype m k n bw
              (frontOffset n s.front j).1 (frontOffset n s.front j).2 i
            unfold wedgeIdxs at this
            rw [this] at hy
            obtain ⟨z, _, rfl⟩ := List.mem_map.mp hy
            rfl
          rw [hxy]
          exact hbound x hxw i (List.mem_cons_self _ _)
      · intro w hw i2 hi2
        show w ≤ i2
        unfold wedgeIdxs at hw
        rw [List.map_append, List.mem_append] at hw
        rcases hw with hw | hw
        · exact hbound w hw i2 (List.mem_cons_of_mem _ hi2)
        · have := wedgeIdxs_addTransformedWedge cfg ptype m k n bw
            (frontOffset n s.front j).1 (frontOffset n s.front j).2 i
          unfold wedgeIdxs at this
          rw [this] at hw
          obtain ⟨z, _, rfl⟩ := List.mem_map.mp hw
          exact hiter.1 i2 hi2
      · exact hiter.2

theorem fold_wedgeIndex_isSome (cfg : Config) (ptype : PaletteType)
    (m k n : ℕ) (bw : List Polygon) :
    ∀ (is : List ℕ) (s : TilingState),
    (∀ p ∈ s.polygons, ∃ i, p.meta.wedgeIndex = some i) →
    ∀ p ∈ (is.foldl (tilingStep cfg ptype m k n bw) s).polygons,
      ∃ i, p.meta.wedgeIndex = some i
  | [], _, hs => hs
  | i :: rest, s, hs => by
    rw [List.foldl_cons]
    cases h : findFirstIdx i s.front with
    | none =>
      rw [tilingStep_of_none h]
      exact fold_wedgeIndex_isSome cfg ptype m k n bw rest s hs
    | some j =>
      rw [tilingStep_of_some h]
      apply fold_wedgeIndex_isSome cfg ptype m k n bw rest
      intro p hp
      rw [List.mem_append] at hp
      rcases hp with hp | hp
      · exact hs p hp
      · unfold addTransformedWedge at hp
        obtain ⟨q, _, rfl⟩ := List.mem_map.mp hp
        exact ⟨i, rfl⟩

theorem addTransformedWedge_wedgeIndex (cfg : Config) (ptype : PaletteType)
    (m k n : ℕ) (bw : List Polygon) (ox oy : ℝ) (i : ℕ) :
    ∀ p ∈ addTransformedWedge cfg ptype m k n bw ox oy i,
      p.meta.wedgeIndex = some i := by
  intro p hp
  unfold addTransformedWedge at hp
  obtain ⟨q, _, rfl⟩ := List.mem_map.mp hp
  rfl

theorem u_seq_getLast (m k : ℕ) : (u_seq m k).getLast? = some 0 := by
  show ((k :: ((((List.range' 1 (k - 1)).takeWhile
    fun j => (j * m) % k != 0).map fun j => (j * m) % k))) ++ [0]).getLast? =
    some 0
  exact List.getLast?_concat _

theorem addTransformedWedge_zero_paths (cfg : Config) (ptype : PaletteType)
    (m k n : ℕ) (bw : List Polygon) :
    (addTransformedWedge cfg ptype m k n bw 0 0 0).map (fun p => p.path) =
      bw.map fun p => p.path := by
  unfold addTransformedWedge
  rw [List.map_map]
  apply List.map_congr_left
  intro p _
  show List.map _ p.path = p.path
  have h0 : (((0 : ℕ) : ℝ)) * (2 * Real.pi / (n : ℝ)) = 0 := by norm_num
  simp only [h0, Real.cos_zero, Real.sin_zero, mul_one, mul_zero, add_zero,
    sub_zero, zero_add]
  simp

theorem addTransformedWedge_meta (cfg : Config) (ptype : PaletteType)
    (m k n : ℕ) (bw : List Polygon) (ox oy : ℝ) (i : ℕ) :
    (addTransformedWedge cfg ptype m k n bw ox oy i).map
      (fun p => (p.meta.wedgeIndex, p.meta.tileIndex, p.meta.r, p.meta.c)) =
      bw.map fun p => (some i, p.meta.tileIndex, p.meta.r, p.meta.c) := by
  unfold addTransformedWedge
  rw [List.map_map]
  rfl

theorem addTransformedWedge_paths (cfg : Config) (ptype : PaletteType)
    (m k n : ℕ) (bw : List Polygon) (ox oy : ℝ) (i : ℕ) :
    (addTransformedWedge cfg ptype m k n bw ox oy i).map (fun p => p.path) =
      bw.map fun p => p.path.map fun pt =>
        (pt.1 * Real.cos ((i : ℝ) * (2 * Real.pi / (n : ℝ))) -
           pt.2 * Real.sin ((i : ℝ) * (2 * Real.pi / (n : ℝ))) + ox,
         pt.1 * Real.sin ((i : ℝ) * (2 * Real.pi / (n : ℝ))) +
           pt.2 * Real.cos ((i : ℝ) * (2 * Real.pi / (n : ℝ))) + oy) := by
  unfold addTransformedWedge
  rw [List.map_map]
  rfl

theorem tilingIter_mem (n : ℕ) (isOffset : Bool) (i : ℕ) :
    i ∈ tilingIter n isOffset ↔
      1 ≤ i ∧ ((i : ℚ) < if isOffset then (n : ℚ) / 2 else (n : ℚ)) := by
  rw [tilingIter, List.mem_range'_1]
  cases isOffset
  · simp only [wLimit, Bool.false_eq_true, if_false]
    constructor
    · rintro ⟨h1, h2⟩
      have h3 : i < n := by omega
      exact ⟨h1, by exact_mod_cast h3⟩
    · rintro ⟨h1, h2⟩
      have h3 : i < n := by exact_mod_cast h2
      omega
  · simp only [wLimit, if_true]
    constructor
    · rintro ⟨h1, h2⟩
      refine ⟨h1, ?_⟩
      rw [lt_div_iff₀ (by norm_num : (0 : ℚ) < 2)]
      have h3 : i * 2 < n := by omega
      exact_mod_cast h3
    · rintro ⟨h1, h2⟩
      rw [lt_div_iff₀ (by norm_num : (0 : ℚ) < 2)] at h2
      have h3 : i * 2 < n := by exact_mod_cast h2
      omega

/-- C2: in `generateTiling(m, k, n, rows, isOffset)` the front starts as
`U` with its trailing sentinel `0` removed; the loop attempts exactly the
integer wedge indices `i` with `1 ≤ i < w_limit` where `w_limit` is
`n/2` in offset mode and `n` otherwise; wedge 0 is placed untransformed
at the origin with `wedgeIndex` forced to `0` and `tileIndex`, `r`, `c`
preserved; for a wedge `i` matched at front position `j`, `j` is the
least front index holding `i`, the copy rotates every base-wedge point
by `i·2π/n` about the origin and translates it by the sum of the
direction vectors of `front[0..j-1]`, the metadata is the base metadata
with `wedgeIndex` overwritten to `i`, and the only front mutation is
`front[j] := i + k`; and the output lists wedges in increasing
rotation-index order. -/
theorem c2_tiling_loop (cfg : Config) (ptype : PaletteType)
    (m k n rows : ℕ) (isOffset : Bool) :
    (u_seq m k).getLast? = some 0 ∧
    (tilingInit cfg ptype m k n rows).front = (u_seq m k).dropLast ∧
    (∀ i : ℕ, i ∈ tilingIter n isOffset ↔
      1 ≤ i ∧ ((i : ℚ) < if isOffset then (n : ℚ) / 2 else (n : ℚ))) ∧
    ((tilingInit cfg ptype m k n rows).polygons.map (fun p => p.path) =
      (generateWedge cfg ptype m k n rows).map (fun p => p.path) ∧
     (tilingInit cfg ptype m k n rows).polygons.map
        (fun p => (p.meta.wedgeIndex, p.meta.tileIndex, p.meta.r, p.meta.c)) =
      (generateWedge cfg ptype m k n rows).map
        (fun p => (some 0, p.meta.tileIndex, p.meta.r, p.meta.c))) ∧
    (∀ (s : TilingState) (i j : ℕ),
      findFirstIdx i s.front = some j →
      (s.front.get? j = some i ∧ ∀ j2 < j, s.front.get? j2 ≠ some i) ∧
      tilingStep cfg ptype m k n (generateWedge cfg ptype m k n rows) s i =
        { polygons := s.polygons ++ addTransformedWedge cfg ptype m k n
            (generateWedge cfg ptype m k n rows)
            (frontOffset n s.front j).1 (frontOffset n s.front j).2 i,
          front := s.front.set j (i + k) } ∧
      frontOffset n s.front j =
        ((s.front.take j).map (getVector n)).foldl
          (fun acc v => (acc.1 + v.1, acc.2 + v.2)) ((0 : ℝ), (0 : ℝ)) ∧
      (addTransformedWedge cfg ptype m k n
          (generateWedge cfg ptype m k n rows)
          (frontOffset n s.front j).1 (frontOffset n s.front j).2 i).map
          (fun p => p.path) =
        (generateWedge cfg ptype m k n rows).map (fun p =>
          p.path.map fun pt =>
            (pt.1 * Real.cos ((i : ℝ) * (2 * Real.pi / (n : ℝ))) -
               pt.2 * Real.sin ((i : ℝ) * (2 * Real.pi / (n : ℝ))) +
               (frontOffset n s.front j).1,
             pt.1 * Real.sin ((i : ℝ) * (2 * Real.pi / (n : ℝ))) +
               pt.2 * Real.cos ((i : ℝ) * (2 * Real.pi / (n : ℝ))) +
               (frontOffset n s.front j).2)) ∧
      (addTransformedWedge cfg ptype m k n
          (generateWedge cfg ptype m k n rows)
          (frontOffset n s.front j).1 (frontOffset n s.front j).2 i).map
          (fun p => (p.meta.wedgeIndex, p.meta.tileIndex, p.meta.r, p.meta.c)) =
        (generateWedge cfg ptype m k n rows).map
          (fun p => (some i, p.meta.tileIndex, p.meta.r, p.meta.c))) ∧
    List.Pairwise (· ≤ ·)
      (wedgeIdxs (tilingPrimary cfg ptype m k n rows isOffset)) := by
  refine ⟨u_seq_getLast m k, rfl, tilingIter_mem n isOffset,
    ⟨addTransformedWedge_zero_paths cfg ptype m k n _,
     addTransformedWedge_meta cfg ptype m k n _ 0 0 0⟩, ?_, ?_⟩
  · intro s i j hfind
    obtain ⟨h1, h2, h3⟩ := findFirstIdx_some hfind
    exact ⟨⟨h2, h3⟩, tilingStep_of_some hfind, rfl,
      addTransformedWedge_paths cfg ptype m k n _ _ _ i,
      addTransformedWedge_meta cfg ptype m k n _ _ _ i⟩
  · unfold tilingPrimary
    by_cases hw : (generateWedge cfg ptype m k n rows).length = 0
    · rw [if_pos hw]
      exact List.Pairwise.nil
    · rw [if_neg hw]
      unfold tilingFinal
      apply fold_wedgeIdxs_pairwise
      · show List.Pairwise (· ≤ ·) (wedgeIdxs (addTransformedWedge cfg ptype
          m k n (generateWedge cfg ptype m k n rows) 0 0 0))
        rw [wedgeIdxs_addTransformedWedge]
        exact pairwise_le_map_const _ 0
      · intro w hw2 i hi
        have hw3 : w ∈ wedgeIdxs (addTransformedWedge cfg ptype m k n
            (generateWedge cfg ptype m k n rows) 0 0 0) := hw2
        rw [wedgeIdxs_addTransformedWedge] at hw3
        obtain ⟨z, _, rfl⟩ := List.mem_map.mp hw3
        exact Nat.zero_le i
      · exact (List.pairwise_lt_range' 1 _).imp le_of_lt

/-- Witness for `c2_tiling_loop`: the matched-step clause instantiated at
a concrete state where direction `3` sits at front position `1`. -/
theorem c2_tiling_loop_witness :
    (([7, 3, 2] : List ℕ).get? 1 = some 3 ∧
      ∀ j2 < 1, ([7, 3, 2] : List ℕ).get? j2 ≠ some 3) ∧
    tilingStep tilingConfig PaletteType.color 3 7 14
        (generateWedge tilingConfig PaletteType.color 3 7 14 1)
        ⟨[], [7, 3, 2]⟩ 3 =
      { polygons := ([] : List Polygon) ++ addTransformedWedge tilingConfig
          PaletteType.color 3 7 14
          (generateWedge tilingConfig PaletteType.color 3 7 14 1)
          (frontOffset 14 [7, 3, 2] 1).1 (frontOffset 14 [7, 3, 2] 1).2 3,
        front := [7, 3, 2].set 1 (3 + 7) } ∧
    frontOffset 14 [7, 3, 2] 1 =
      (([7, 3, 2].take 1).map (getVector 14)).foldl
        (fun acc v => (acc.1 + v.1, acc.2 + v.2)) ((0 : ℝ), (0 : ℝ)) ∧
    (addTransformedWedge tilingConfig PaletteType.color 3 7 14
        (generateWedge tilingConfig PaletteType.color 3 7 14 1)
        (frontOffset 14 [7, 3, 2] 1).1 (frontOffset 14 [7, 3, 2] 1).2 3).map
        (fun p => p.path) =
      (generateWedge tilingConfig PaletteType.color 3 7 14 1).map (fun p =>
        p.path.map fun pt =>
          (pt.1 * Real.cos ((3 : ℝ) * (2 * Real.pi / (14 : ℝ))) -
             pt.2 * Real.sin ((3 : ℝ) * (2 * Real.pi / (14 : ℝ))) +
             (frontOffset 14 [7, 3, 2] 1).1,
           pt.1 * Real.sin ((3 : ℝ) * (2 * Real.pi / (14 : ℝ))) +
             pt.2 * Real.cos ((3 : ℝ) * (2 * Real.pi / (14 : ℝ))) +
             (frontOffset 14 [7, 3, 2] 1).2)) ∧
    (addTransformedWedge tilingConfig PaletteType.color 3 7 14
        (generateWedge tilingConfig PaletteType.color 3 7 14 1)
        (frontOffset 14 [7, 3, 2] 1).1 (frontOffset 14 [7, 3, 2] 1).2 3).map
        (fun p => (p.meta.wedgeIndex, p.meta.tileIndex, p.meta.r, p.meta.c)) =
      (generateWedge tilingConfig PaletteType.color 3 7 14 1).map
        (fun p => (some 3, p.meta.tileIndex, p.meta.r, p.meta.c)) :=
  (c2_tiling_loop tilingConfig PaletteType.color 3 7 14 1 false).2.2.2.2.1
    ⟨[], [7, 3, 2]⟩ 3 1 (by decide)

/-- C4: in offset mode the output is the primary pass followed by the
point reflection of every primary polygon about
`pivot = getVector(0)/2`; the polygon count doubles; each reflected
polygon maps every point `p` to `2·pivot − p`, copies color and stroke,
sets `isCopy := true`, adds `10000` to `wedgeIndex`, and preserves the
rest of the metadata; and every primary polygon carries a numeric
`wedgeIndex` (so the `+10000` acts on an actual wedge index). -/
theorem c4_offset_symmetry (cfg : Config) (ptype : PaletteType)
    (m k n rows : ℕ) :
    generateTiling cfg ptype m k n rows true =
      tilingPrimary cfg ptype m k n rows true ++
        (tilingPrimary cfg ptype m k n rows true).map (pointReflect n) ∧
    (generateTiling cfg ptype m k n rows true).length =
      2 * (tilingPrimary cfg ptype m k n rows true).length ∧
    pivot n = ((getVector n 0).1 / 2, (getVector n 0).2 / 2) ∧
    (∀ p : Polygon,
      (pointReflect n p).path = p.path.map (fun pt =>
        (2 * (pivot n).1 - pt.1, 2 * (pivot n).2 - pt.2)) ∧
      (pointReflect n p).color = p.color ∧
      (pointReflect n p).stroke = p.stroke ∧
      (pointReflect n p).meta.isCopy = some true ∧
      (pointReflect n p).meta.wedgeIndex = p.meta.wedgeIndex.map (· + 10000) ∧
      (pointReflect n p).meta.tileIndex = p.meta.tileIndex ∧
      (pointReflect n p).meta.r = p.meta.r ∧
      (pointReflect n p).meta.c = p.meta.c) ∧
    (tilingPrimary cfg ptype m k n rows true).map
        (fun p => p.meta.wedgeIndex.isSome) =
      (tilingPrimary cfg ptype m k n rows true).map fun _ => true := by
  have heq : generateTiling cfg ptype m k n rows true =
      tilingPrimary cfg ptype m k n rows true ++
        (tilingPrimary cfg ptype m k n rows true).map (pointReflect n) := by
    unfold generateTiling tilingPrimary
    by_cases hw : (generateWedge cfg ptype m k n rows).length = 0
    · rw [if_pos hw, if_pos hw]
      rfl
    · rw [if_neg hw, if_neg hw]
      rfl
  refine ⟨heq, ?_, rfl,
    fun p => ⟨rfl, rfl, rfl, rfl, rfl, rfl, rfl, rfl⟩, ?_⟩
  · rw [heq, List.length_append, List.length_map]
    omega
  · apply List.map_congr_left
    intro p hp
    unfold tilingPrimary at hp
    by_cases hw : (generateWedge cfg ptype m k n rows).length = 0
    · rw [if_pos hw] at hp
      simp at hp
    · rw [if_neg hw] at hp
      unfold tilingFinal at hp
      obtain ⟨i, hi⟩ := fold_wedgeIndex_isSome cfg ptype m k n
        (generateWedge cfg ptype m k n rows) (tilingIter n true)
        (tilingInit cfg ptype m k n rows)
        (fun q hq => ⟨0, addTransformedWedge_wedgeIndex cfg ptype m k n
          (generateWedge cfg ptype m k n rows) 0 0 0 q hq⟩) p hp
      rw [hi]
      rfl

/-- C8: when no front entry equals the wedge index `i`, that iteration
leaves the state unchanged — no polygons are added and the front is not
mutated — and the loop simply continues with the remaining wedge
indices. -/
theorem c8_skip_unmatched (cfg : Config) (ptype : PaletteType)
    (m k n : ℕ) (bw : List Polygon) (s : TilingState) (i : ℕ)
    (is : List ℕ) (h : ∀ x ∈ s.front, x ≠ i) :
    tilingStep cfg ptype m k n bw s i = s ∧
    (i :: is).foldl (tilingStep cfg ptype m k n bw) s =
      is.foldl (tilingStep cfg ptype m k n bw) s := by
  have hnone : findFirstIdx i s.front = none := findFirstIdx_none_iff.mpr h
  refine ⟨tilingStep_of_none hnone, ?_⟩
  rw [List.foldl_cons, tilingStep_of_none hnone]

/-- Witness for `c8_skip_unmatched`: direction `2` is absent from the
front `[5]`, so the step is the identity and the loop moves on. -/
theorem c8_skip_unmatched_witness :
    tilingStep tilingConfig PaletteType.color 3 7 14 [] ⟨[], [5]⟩ 2 =
      (⟨[], [5]⟩ : TilingState) ∧
    ([2, 4].foldl (tilingStep tilingConfig PaletteType.color 3 7 14 [])
        ⟨[], [5]⟩ =
      [4].foldl (tilingStep tilingConfig PaletteType.color 3 7 14 [])
        ⟨[], [5]⟩) :=
  c8_skip_unmatched tilingConfig PaletteType.color 3 7 14 [] ⟨[], [5]⟩ 2 [4]
    (by decide)

/-- C10: the front keeps a constant length (that of its initialization,
`|U| − 1`) throughout the run: a step either changes nothing or
overwrites exactly the single entry `front[j]` (holding `i`) with
`i + k` while appending polygons, so every front entry is an original
entry of the initial front or `i + k` for one of the attempted wedges. -/
theorem c10_front_invariant (cfg : Config) (ptype : PaletteType)
    (m k n rows : ℕ) (isOffset : Bool) :
    (∀ (bw : List Polygon) (is : List ℕ) (s : TilingState),
      ((is.foldl (tilingStep cfg ptype m k n bw) s).front).length =
        s.front.length ∧
      (∀ x ∈ (is.foldl (tilingStep cfg ptype m k n bw) s).front,
        x ∈ s.front ∨ ∃ i ∈ is, x = i + k)) ∧
    (∀ (bw : List Polygon) (s : TilingState) (i : ℕ),
      tilingStep cfg ptype m k n bw s i = s ∨
      ∃ j, j < s.front.length ∧ s.front.get? j = some i ∧
        (tilingStep cfg ptype m k n bw s i).front = s.front.set j (i + k) ∧
        (tilingStep cfg ptype m k n bw s i).polygons =
          s.polygons ++ addTransformedWedge cfg ptype m k n bw
            (frontOffset n s.front j).1 (frontOffset n s.front j).2 i) ∧
    ((tilingFinal cfg ptype m k n rows isOffset).front).length =
      (u_seq m k).length - 1 := by
  refine ⟨fun bw is s => ⟨fold_front_length cfg ptype m k n bw is s,
    fold_front_mem cfg ptype m k n bw is s⟩, ?_, ?_⟩
  · intro bw s i
    cases h : findFirstIdx i s.front with
    | none => exact Or.inl (tilingStep_of_none h)
    | some j =>
      obtain ⟨h1, h2, _⟩ := findFirstIdx_some h
      refine Or.inr ⟨j, h1, h2, ?_, ?_⟩
      · rw [tilingStep_of_some h]
      · rw [tilingStep_of_some h]
  · unfold tilingFinal
    rw [fold_front_length]
    show ((u_seq m k).dropLast).length = (u_seq m k).length - 1
    exact List.length_dropLast _

/-- Witness for `c10_front_invariant`: the front-membership clause
instantiated on a singleton front with an empty iteration list. -/
theorem c10_front_invariant_witness :
    (([] : List ℕ).foldl
        (tilingStep tilingConfig PaletteType.color 3 7 14 [])
        ⟨[], [9]⟩).front.length = ([9] : List ℕ).length ∧
    ∀ x ∈ (([] : List ℕ).foldl
        (tilingStep tilingConfig PaletteType.color 3 7 14 [])
        ⟨[], [9]⟩).front,
      x ∈ ([9] : List ℕ) ∨ ∃ i ∈ ([] : List ℕ), x = i + 7 :=
  (c10_front_invariant tilingConfig PaletteType.color 3 7 14 0 false).1
    [] [] ⟨[], [9]⟩

/-- C1 counterexample: with `n = 2 < k = 3` the generator does not abort:
`generatePrototile` still returns a normal one-polygon list, and
`generateTiling` returns a non-empty polygon list. -/
theorem c1_counterexample :
    2 < 3 ∧ (generatePrototile 1 3 2).length = 1 ∧
    generateTiling tilingConfig PaletteType.color 1 3 2 1 false ≠ [] := by
  refine ⟨by decide, rfl, ?_⟩
  intro h
  have h2 : (generateTiling tilingConfig PaletteType.color 1 3 2 1
      false).length = 2 := rfl
  rw [h] at h2
  simp at h2

/-- C1 (amended): when `n < k` the parameter error is (only) reported —
`paramErrorLogged` holds — while `generatePrototile` still returns its
normal one-polygon list and `generateTiling` still returns a non-empty
list for `rows > 0`; the early return on `n < k` lives in the UI caller,
not in the generator. -/
theorem c1_no_abort (cfg : Config) (ptype : PaletteType)
    (m k n rows : ℕ) (h : n < k) :
    paramErrorLogged k n = true ∧
    (generatePrototile m k n).length = 1 ∧
    (0 < rows → generateTiling cfg ptype m k n rows false ≠ []) := by
  refine ⟨by simp [paramErrorLogged, h], rfl, ?_⟩
  intro hrows hempty
  have hwlen : (generateWedge cfg ptype m k n rows).length =
      (rcList rows).length := by
    rw [generateWedge_eq, List.length_map, List.enum_length]
  have hpos : 0 < (rcList rows).length := by
    have h2 := rcList_length rows
    have h3 : 1 * 2 ≤ rows * (rows + 1) :=
      Nat.mul_le_mul hrows (by omega)
    generalize hP : rows * (rows + 1) = P at h2 h3
    omega
  unfold generateTiling at hempty
  rw [if_neg (by omega)] at hempty
  have hfin : (tilingFinal cfg ptype m k n rows false).polygons = [] := by
    simpa using hempty
  unfold tilingFinal at hfin
  obtain ⟨t, ht⟩ := fold_polygons_prefix cfg ptype m k n
    (generateWedge cfg ptype m k n rows) (tilingIter n false)
    (tilingInit cfg ptype m k n rows)
  rw [ht] at hfin
  have hinit : (tilingInit cfg ptype m k n rows).polygons = [] :=
    (List.append_eq_nil.mp hfin).1
  have hlen2 : (tilingInit cfg ptype m k n rows).polygons.length =
      (generateWedge cfg ptype m k n rows).length := by
    show (addTransformedWedge cfg ptype m k n
      (generateWedge cfg ptype m k n rows) 0 0 0).length = _
    unfold addTransformedWedge
    rw [List.length_map]
  rw [hinit] at hlen2
  simp at hlen2
  omega

/-- Witness for `c1_no_abort` at `(m, k, n) = (1, 3, 2)`. -/
theorem c1_no_abort_witness :
    paramErrorLogged 3 2 = true ∧
    (generatePrototile 1 3 2).length = 1 ∧
    (0 < 1 → generateTiling tilingConfig PaletteType.color 1 3 2 1
      false ≠ []) :=
  c1_no_abort tilingConfig PaletteType.color 1 3 2 1 (by decide)

theorem addTransformedWedge_polyGeom (cfg : Config) (ptype : PaletteType)
    (m k n : ℕ) (bw : List Polygon) (ox oy : ℝ) (i : ℕ) :
    (addTransformedWedge cfg ptype m k n bw ox oy i).map polyGeom =
      (bw.map polyGeom).map (geomTransform n ox oy i) := by
  unfold addTransformedWedge geomTransform polyGeom
  rw [List.map_map, List.map_map]
  rfl

theorem pointReflect_polyGeom (n : ℕ) (P : List Polygon) :
    (P.map (pointReflect n)).map polyGeom =
      (P.map polyGeom).map (reflectGeom n) := by
  rw [List.map_map, List.map_map]
  rfl

theorem generateWedge_polyGeom (cfg cfg' : Config) (pt pt' : PaletteType)
    (m k n rows : ℕ) :
    (generateWedge cfg pt m k n rows).map polyGeom =
      (generateWedge cfg' pt' m k n rows).map polyGeom := by
  rw [generateWedge_eq, generateWedge_eq, List.map_map, List.map_map]
  rfl

theorem fold_geom (m k n : ℕ) (bw bw' : List Polygon)
    (cfg cfg' : Config) (pt pt' : PaletteType)
    (hbw : bw.map polyGeom = bw'.map polyGeom) :
    ∀ (is : List ℕ) (s s' : TilingState), s.front = s'.front →
    s.polygons.map polyGeom = s'.polygons.map polyGeom →
    ((is.foldl (tilingStep cfg pt m k n bw) s).front =
      (is.foldl (tilingStep cfg' pt' m k n bw') s').front ∧
     (is.foldl (tilingStep cfg pt m k n bw) s).polygons.map polyGeom =
      (is.foldl (tilingStep cfg' pt' m k n bw') s').polygons.map polyGeom)
  | [], _, _, hf, hp => ⟨hf, hp⟩
  | i :: rest, s, s', hf, hp => by
    rw [List.foldl_cons, List.foldl_cons]
    cases h : findFirstIdx i s.front with
    | none =>
      have h2 : findFirstIdx i s'.front = none := by
        rw [← hf]
        exact h
      rw [tilingStep_of_none h, tilingStep_of_none h2]
      exact fold_geom m k n bw bw' cfg cfg' pt pt' hbw rest s s' hf hp
    | some j =>
      have h2 : findFirstIdx i s'.front = some j := by
        rw [← hf]
        exact h
      rw [tilingStep_of_some h, tilingStep_of_some h2]
      apply fold_geom m k n bw bw' cfg cfg' pt pt' hbw rest
      · show s.front.set j (i + k) = s'.front.set j (i + k)
        rw [hf]
      · show (s.polygons ++ _).map polyGeom = (s'.polygons ++ _).map polyGeom
        rw [List.map_append, List.map_append, hp,
          addTransformedWedge_polyGeom, addTransformedWedge_polyGeom, hbw, hf]

theorem tilingFinal_geom (cfg cfg' : Config) (pt pt' : PaletteType)
    (m k n rows : ℕ) (isOffset : Bool) :
    (tilingFinal cfg pt m k n rows isOffset).polygons.map polyGeom =
      (tilingFinal cfg' pt' m k n rows isOffset).polygons.map polyGeom := by
  unfold tilingFinal
  refine (fold_geom m k n (generateWedge cfg pt m k n rows)
    (generateWedge cfg' pt' m k n rows) cfg cfg' pt pt'
    (generateWedge_polyGeom cfg cfg' pt pt' m k n rows)
    (tilingIter n isOffset) (tilingInit cfg pt m k n rows)
    (tilingInit cfg' pt' m k n rows) rfl ?_).2
  show (addTransformedWedge cfg pt m k n
      (generateWedge cfg pt m k n rows) 0 0 0).map polyGeom =
    (addTransformedWedge cfg' pt' m k n
      (generateWedge cfg' pt' m k n rows) 0 0 0).map polyGeom
  rw [addTransformedWedge_polyGeom, addTransformedWedge_polyGeom,
    generateWedge_polyGeom cfg cfg' pt pt' m k n rows]

/-- `generateTiling` written through the primary pass. -/
theorem generateTiling_primary (cfg : Config) (pt : PaletteType)
    (m k n rows : ℕ) (isOffset : Bool) :
    generateTiling cfg pt m k n rows isOffset =
      if isOffset then
        tilingPrimary cfg pt m k n rows isOffset ++
          (tilingPrimary cfg pt m k n rows isOffset).map (pointReflect n)
      else tilingPrimary cfg pt m k n rows isOffset := by
  unfold generateTiling tilingPrimary
  by_cases hw : (generateWedge cfg pt m k n rows).length = 0
  · rw [if_pos hw, if_pos hw]
    cases isOffset <;> simp
  · rw [if_neg hw, if_neg hw]

/-- C7 (amended): the geometry — paths, strokes and metadata, in their
exact order — produced by `generateTiling` is a pure function of
`(m, k, n, rows, isOffset)` alone: it does not depend on the ambient
color configuration or stored palette type.  (The colors do depend on
that mutable state; see the counterexample.) -/
theorem c7_geometry_pure (cfg cfg' : Config) (pt pt' : PaletteType)
    (m k n rows : ℕ) (isOffset : Bool) :
    (generateTiling cfg pt m k n rows isOffset).map polyGeom =
      (generateTiling cfg' pt' m k n rows isOffset).map polyGeom := by
  have hwlen : (generateWedge cfg pt m k n rows).length =
      (generateWedge cfg' pt' m k n rows).length := by
    rw [generateWedge_eq, generateWedge_eq, List.length_map,
      List.length_map]
  have hprim : (tilingPrimary cfg pt m k n rows isOffset).map polyGeom =
      (tilingPrimary cfg' pt' m k n rows isOffset).map polyGeom := by
    unfold tilingPrimary
    by_cases hw : (generateWedge cfg pt m k n rows).length = 0
    · have hw2 : (generateWedge cfg' pt' m k n rows).length = 0 := by
        rw [← hwlen]
        exact hw
      rw [if_pos hw, if_pos hw2]
    · have hw2 : ¬(generateWedge cfg' pt' m k n rows).length = 0 := by
        rw [← hwlen]
        exact hw
      rw [if_neg hw, if_neg hw2]
      exact tilingFinal_geom cfg cfg' pt pt' m k n rows isOffset
  rw [generateTiling_primary, generateTiling_primary]
  cases isOffset with
  | false =>
    simpa using hprim
  | true =>
    simp only [if_true]
    rw [List.map_append, List.map_append, hprim, pointReflect_polyGeom,
      pointReflect_polyGeom, hprim]

/-- C7 counterexample: two calls to `generateTiling` with identical
arguments `(m, k, n, rows, isOffset) = (1, 1, 1, 1, false)` but a
different stored palette type (mutable generator state outside those
arguments) return different polygon lists — the colors differ — so the
output is not a pure function of those five arguments alone. -/
theorem c7_counterexample :
    generateTiling tilingConfig PaletteType.color 1 1 1 1 false ≠
      generateTiling tilingConfig PaletteType.gray 1 1 1 1 false := by
  intro h
  have e1 : (generateTiling tilingConfig PaletteType.color 1 1 1 1
      false).map (fun p => colorSat p.color) = [70] := rfl
  have e2 : (generateTiling tilingConfig PaletteType.gray 1 1 1 1
      false).map (fun p => colorSat p.color) = [0] := rfl
  rw [h, e2] at e1
  exact absurd e1 (by decide)

end Krinkle
